import Mathlib

/-!
Verification development for the `customer-love` praise-card generator
(`src/praise-cards/src/app/page.tsx`).  The repository renders styled quote
cards onto HTML canvases.  This file gives a shallow embedding of the
deterministic rendering core — the text layout engine `wrapTextSmart`, the
clamp helper `computeSafeStartY`, the contrast resolver `chooseTextColors`,
the design selector (`generateDesign` / `makeDesigns`), and the card
compositors (`renderCard` of the wall page and of the generator page) — and
proves the specified properties about it.

Conventions of the embedding:
* JavaScript numbers are modelled as `ℚ` (all arithmetic in the rendering
  core is exact on rationals except for the host collaborators listed next).
* Host collaborators that are not part of the rendered algorithm are taken
  as function parameters: the text measurement capability
  (`ctx.measureText`, parameter `m`), the seeded PRNG stream
  (`seededRandom`, parameter `rnd`; its body calls `Math.sin`, a host float
  op, but the code treats it as an opaque pure map from seed to [0,1)),
  the pixel sampler (`sampleAverageRgb` reads raster pixels, parameter
  `sample`), and sRGB luminance (`relLuma` calls `Math.pow (· ) 2.4`,
  parameter `lum`).
* Text is modelled as `List Char`; canvas mutations are modelled as a trace
  of draw operations (`DrawOp`), one per canvas draw call, recording the
  call parameters.
-/

namespace PraiseCards

/-- Character class of the regular expression `\s` used by
`text.split(/\s+/)` (page.tsx line 64 and its two copies).  The common
whitespace characters suffice for this development. -/
def jsWhitespace (c : Char) : Bool :=
  c == ' ' || c == '\t' || c == '\n' || c == '\r' || c == '\x0b' || c == '\x0c'

/-- Accumulator loop for `tokenize`: `cur` is the non-whitespace run read so
far.  A whitespace character flushes `cur` (if nonempty), mirroring
`text.split(/\s+/).filter(Boolean)`, which yields the maximal nonempty
runs of non-whitespace characters in order. -/
def tokenizeAux (cur : List Char) : List Char → List (List Char)
  | [] => if cur = [] then [] else [cur]
  | c :: cs =>
      if jsWhitespace c then
        (if cur = [] then [] else [cur]) ++ tokenizeAux [] cs
      else tokenizeAux (cur ++ [c]) cs

/-- Embedding of `text.split(/\s+/).filter(Boolean)` (page.tsx line 64). -/
def tokenize (s : List Char) : List (List Char) :=
  tokenizeAux [] s

/-- Character-splitting loop of `wrapTextSmart` (page.tsx lines 86-94): a
token wider than `maxWidth` is cut greedily into chunks.  Returns the list
of chunks pushed onto `lines` inside the loop, paired with the final value
of `chunk` (which the source keeps as the new `current`). -/
def charSplitGo (m : List Char → ℚ) (w : ℚ) (chunk : List Char) :
    List Char → List (List Char) × List Char
  | [] => ([], chunk)
  | c :: cs =>
      let t := chunk ++ [c]
      if m t ≤ w then charSplitGo m w t cs
      else
        let r := charSplitGo m w [c] cs
        ((if chunk = [] then r.1 else chunk :: r.1), r.2)

/-- Character split of one over-wide token, started with `chunk = ""` as in
page.tsx line 86. -/
def charSplit (m : List Char → ℚ) (w : ℚ) (tok : List Char) :
    List (List Char) × List Char :=
  charSplitGo m w [] tok

/-- Main loop of `wrapTextSmart` (page.tsx lines 73-96) over the token
list, carrying the current line `current`.  The three branches mirror the
source: (1) the token extends the current line if the tentative line fits;
(2) otherwise the current line is flushed and the token starts a new line
if it fits alone; (3) otherwise the token is character-split, the chunks
are emitted as lines, and the final chunk becomes the new current line. -/
def wrapTokens (m : List Char → ℚ) (w : ℚ) (current : List Char) :
    List (List Char) → List (List Char)
  | [] => if current = [] then [] else [current]
  | tok :: rest =>
      let test := if current = [] then tok else current ++ ' ' :: tok
      if m test ≤ w then wrapTokens m w test rest
      else
        let flushed : List (List Char) := if current = [] then [] else [current]
        if m tok ≤ w then flushed ++ wrapTokens m w tok rest
        else
          let r := charSplit m w tok
          flushed ++ r.1 ++ wrapTokens m w r.2 rest

/-- Embedding of `wrapTextSmart` of the paginated wall page (page.tsx lines
59-99).  The measurement context `ctx` (whose font is already set by the
caller) is abstracted to the measure function `m`. -/
def wrapTextSmart (m : List Char → ℚ) (text : List Char) (maxWidth : ℚ) :
    List (List Char) :=
  wrapTokens m maxWidth [] (tokenize text)

/-- Character-splitting loop of the live wall page copy of `wrapTextSmart`
(page.tsx lines 935-944), transcribed separately for the equivalence
claim. -/
def charSplitLiveGo (m : List Char → ℚ) (w : ℚ) (chunk : List Char) :
    List Char → List (List Char) × List Char
  | [] => ([], chunk)
  | c :: cs =>
      let t := chunk ++ [c]
      if m t ≤ w then charSplitLiveGo m w t cs
      else
        let r := charSplitLiveGo m w [c] cs
        ((if chunk = [] then r.1 else chunk :: r.1), r.2)

/-- Main loop of the live wall page copy of `wrapTextSmart` (page.tsx lines
908-948). -/
def wrapTokensLive (m : List Char → ℚ) (w : ℚ) (current : List Char) :
    List (List Char) → List (List Char)
  | [] => if current = [] then [] else [current]
  | tok :: rest =>
      let test := if current = [] then tok else current ++ ' ' :: tok
      if m test ≤ w then wrapTokensLive m w test rest
      else
        let flushed : List (List Char) := if current = [] then [] else [current]
        if m tok ≤ w then flushed ++ wrapTokensLive m w tok rest
        else
          let r := charSplitLiveGo m w [] tok
          flushed ++ r.1 ++ wrapTokensLive m w r.2 rest

/-- Embedding of `wrapTextSmart` of the live wall page (page.tsx lines
908-948). -/
def wrapTextSmartLive (m : List Char → ℚ) (text : List Char) (maxWidth : ℚ) :
    List (List Char) :=
  wrapTokensLive m maxWidth [] (tokenize text)

/-- Character-splitting loop of the generator page copy of `wrapTextSmart`
(page.tsx lines 1846-1857; only brace style differs from the wall copies). -/
def charSplitGenGo (m : List Char → ℚ) (w : ℚ) (chunk : List Char) :
    List Char → List (List Char) × List Char
  | [] => ([], chunk)
  | c :: cs =>
      let t := chunk ++ [c]
      if m t ≤ w then charSplitGenGo m w t cs
      else
        let r := charSplitGenGo m w [c] cs
        ((if chunk = [] then r.1 else chunk :: r.1), r.2)

/-- Main loop of the generator page copy of `wrapTextSmart` (page.tsx lines
1819-1861). -/
def wrapTokensGen (m : List Char → ℚ) (w : ℚ) (current : List Char) :
    List (List Char) → List (List Char)
  | [] => if current = [] then [] else [current]
  | tok :: rest =>
      let test := if current = [] then tok else current ++ ' ' :: tok
      if m test ≤ w then wrapTokensGen m w test rest
      else
        let flushed : List (List Char) := if current = [] then [] else [current]
        if m tok ≤ w then flushed ++ wrapTokensGen m w tok rest
        else
          let r := charSplitGenGo m w [] tok
          flushed ++ r.1 ++ wrapTokensGen m w r.2 rest

/-- Embedding of `wrapTextSmart` of the generator page (page.tsx lines
1819-1861). -/
def wrapTextSmartGen (m : List Char → ℚ) (text : List Char) (maxWidth : ℚ) :
    List (List Char) :=
  wrapTokensGen m maxWidth [] (tokenize text)

/-- Joining a list of lines with single spaces, as described by the
lossless-wrap property (spec §8). -/
def joinLines : List (List Char) → List Char
  | [] => []
  | [l] => l
  | l :: l₂ :: ls => l ++ ' ' :: joinLines (l₂ :: ls)

/-- Full chunk decomposition of one over-wide token: the chunks emitted
inside the character-splitting loop followed by the final chunk (which the
source turns into the next current line, so it also reaches the output as
its own whitespace-separated unit). -/
def chunksOf (m : List Char → ℚ) (w : ℚ) (tok : List Char) : List (List Char) :=
  let r := charSplit m w tok
  r.1 ++ (if r.2 = [] then [] else [r.2])

/-- Splitting distributes over an inserted space: the inserted separator
only ever acts as a token boundary. -/
theorem tokenizeAux_append_space (ys : List Char) :
    ∀ (xs cur : List Char),
      tokenizeAux cur (xs ++ ' ' :: ys) = tokenizeAux cur xs ++ tokenizeAux [] ys := by
  intro xs
  induction xs with
  | nil => intro cur; simp [tokenizeAux, jsWhitespace]
  | cons c cs ih =>
      intro cur
      by_cases h : jsWhitespace c <;> simp [tokenizeAux, h, ih]

/-- Token lists concatenate across a single inserted space. -/
theorem tokenize_append_space (a b : List Char) :
    tokenize (a ++ ' ' :: b) = tokenize a ++ tokenize b :=
  tokenizeAux_append_space b a []

/-- Splitting an all-whitespace string yields no tokens beyond the carried
run. -/
theorem tokenizeAux_of_all_ws :
    ∀ (s cur : List Char), (∀ c ∈ s, jsWhitespace c = true) →
      tokenizeAux cur s = if cur = [] then [] else [cur] := by
  intro s
  induction s with
  | nil => intro cur _; rfl
  | cons c cs ih =>
      intro cur h
      have hc : jsWhitespace c = true := h c (by simp)
      have ih0 := ih [] (fun x hx => h x (by simp [hx]))
      simp [tokenizeAux, hc, ih0]

/-- Empty or all-whitespace text yields zero tokens. -/
theorem tokenize_of_all_ws (s : List Char) (h : ∀ c ∈ s, jsWhitespace c = true) :
    tokenize s = [] := by
  simp [tokenize, tokenizeAux_of_all_ws s [] h]

/-- Splitting a whitespace-free string just appends it to the carried run. -/
theorem tokenizeAux_of_all_not_ws :
    ∀ (s cur : List Char), (∀ c ∈ s, jsWhitespace c = false) →
      tokenizeAux cur s = if cur ++ s = [] then [] else [cur ++ s] := by
  intro s
  induction s with
  | nil => intro cur _; simp [tokenizeAux]
  | cons c cs ih =>
      intro cur h
      have hc : jsWhitespace c = false := h c (by simp)
      have ih1 := ih (cur ++ [c]) (fun x hx => h x (by simp [hx]))
      simp only [tokenizeAux, hc, Bool.false_eq_true, if_false, ih1]
      simp

/-- A nonempty whitespace-free string is a single token. -/
theorem tokenize_eq_single (t : List Char) (h0 : t ≠ [])
    (h : ∀ c ∈ t, jsWhitespace c = false) : tokenize t = [t] := by
  simp [tokenize, tokenizeAux_of_all_not_ws t [] h, h0]

/-- Every produced token is nonempty and whitespace-free. -/
theorem tokenizeAux_mem_good :
    ∀ (s cur : List Char), (∀ c ∈ cur, jsWhitespace c = false) →
      ∀ t ∈ tokenizeAux cur s, t ≠ [] ∧ ∀ c ∈ t, jsWhitespace c = false := by
  intro s
  induction s with
  | nil =>
      intro cur hcur t ht
      by_cases h : cur = [] <;> simp [tokenizeAux, h] at ht
      exact ht ▸ ⟨h, hcur⟩
  | cons c cs ih =>
      intro cur hcur t ht
      by_cases hc : jsWhitespace c
      · simp only [tokenizeAux, hc, if_true, List.mem_append] at ht
        rcases ht with ht | ht
        · by_cases h : cur = [] <;> simp [h] at ht
          exact ht ▸ ⟨h, hcur⟩
        · exact ih [] (by simp) t ht
      · simp only [tokenizeAux, hc, Bool.false_eq_true, if_false] at ht
        refine ih (cur ++ [c]) ?_ t ht
        intro x hx
        rcases List.mem_append.mp hx with hx | hx
        · exact hcur x hx
        · simp at hx
          simpa [hx] using hc

/-- Every token of `tokenize` is nonempty and whitespace-free. -/
theorem tokenize_mem_good (s : List Char) :
    ∀ t ∈ tokenize s, t ≠ [] ∧ ∀ c ∈ t, jsWhitespace c = false :=
  tokenizeAux_mem_good s [] (by simp)

/-- Character-split chunks concatenate back to the carried chunk followed by
the remaining characters: no character is lost or duplicated. -/
theorem charSplitGo_flatten (m : List Char → ℚ) (w : ℚ) :
    ∀ (cs chunk : List Char),
      ((charSplitGo m w chunk cs).1).flatten ++ (charSplitGo m w chunk cs).2
        = chunk ++ cs := by
  intro cs
  induction cs with
  | nil => intro chunk; simp [charSplitGo]
  | cons c cs ih =>
      intro chunk
      by_cases hfit : m (chunk ++ [c]) ≤ w
      · simpa [charSplitGo, hfit] using ih (chunk ++ [c])
      · by_cases h : chunk = [] <;>
          simp [charSplitGo, hfit, h, ih [c]]

/-- Chunks emitted inside the character-splitting loop are nonempty. -/
theorem charSplitGo_ne_nil (m : List Char → ℚ) (w : ℚ) :
    ∀ (cs chunk : List Char), ∀ l ∈ (charSplitGo m w chunk cs).1, l ≠ [] := by
  intro cs
  induction cs with
  | nil => intro chunk l hl; simp [charSplitGo] at hl
  | cons c cs ih =>
      intro chunk l hl
      by_cases hfit : m (chunk ++ [c]) ≤ w
      · exact ih (chunk ++ [c]) l (by simpa [charSplitGo, hfit] using hl)
      · by_cases h : chunk = []
        · exact ih [c] l (by simpa [charSplitGo, hfit, h] using hl)
        · simp only [charSplitGo, hfit, if_false, h, List.mem_cons] at hl
          rcases hl with rfl | hl
          · exact h
          · exact ih [c] l hl

/-- Character-splitting preserves whitespace-freeness of chunks. -/
theorem charSplitGo_not_ws (m : List Char → ℚ) (w : ℚ) :
    ∀ (cs chunk : List Char), (∀ c ∈ chunk, jsWhitespace c = false) →
      (∀ c ∈ cs, jsWhitespace c = false) →
      (∀ l ∈ (charSplitGo m w chunk cs).1, ∀ c ∈ l, jsWhitespace c = false) ∧
        (∀ c ∈ (charSplitGo m w chunk cs).2, jsWhitespace c = false) := by
  intro cs
  induction cs with
  | nil =>
      intro chunk hchunk _
      exact ⟨by intro l hl; simp [charSplitGo] at hl, by simpa [charSplitGo] using hchunk⟩
  | cons c cs ih =>
      intro chunk hchunk hcs
      have hc : jsWhitespace c = false := hcs c (by simp)
      have hcs2 : ∀ x ∈ cs, jsWhitespace x = false := fun x hx => hcs x (by simp [hx])
      by_cases hfit : m (chunk ++ [c]) ≤ w
      · have hch2 : ∀ x ∈ chunk ++ [c], jsWhitespace x = false := by
          intro x hx
          rcases List.mem_append.mp hx with hx | hx
          · exact hchunk x hx
          · simp at hx; simpa [hx] using hc
        simpa [charSplitGo, hfit] using ih (chunk ++ [c]) hch2 hcs2
      · have hrec := ih [c] (by intro x hx; simp at hx; simpa [hx] using hc) hcs2
        by_cases h : chunk = []
        · simpa [charSplitGo, hfit, h] using hrec
        · refine ⟨?_, by simpa [charSplitGo, hfit, h] using hrec.2⟩
          intro l hl
          simp only [charSplitGo, hfit, if_false, h, List.mem_cons] at hl
          rcases hl with rfl | hl
          · exact hchunk
          · exact hrec.1 l hl

/-- Width invariant of the character-splitting loop: every emitted chunk
either fits within `w` or is a single character, and so does the final
chunk (unless empty). -/
theorem charSplitGo_bound (m : List Char → ℚ) (w : ℚ) :
    ∀ (cs chunk : List Char), (chunk = [] ∨ m chunk ≤ w ∨ chunk.length = 1) →
      (∀ l ∈ (charSplitGo m w chunk cs).1, m l ≤ w ∨ l.length = 1) ∧
        ((charSplitGo m w chunk cs).2 = [] ∨ m (charSplitGo m w chunk cs).2 ≤ w ∨
          (charSplitGo m w chunk cs).2.length = 1) := by
  intro cs
  induction cs with
  | nil =>
      intro chunk hchunk
      exact ⟨by intro l hl; simp [charSplitGo] at hl, by simpa [charSplitGo] using hchunk⟩
  | cons c cs ih =>
      intro chunk hchunk
      by_cases hfit : m (chunk ++ [c]) ≤ w
      · simpa [charSplitGo, hfit] using ih (chunk ++ [c]) (Or.inr (Or.inl hfit))
      · have hrec := ih [c] (Or.inr (Or.inr (by simp)))
        by_cases h : chunk = []
        · simpa [charSplitGo, hfit, h] using hrec
        · refine ⟨?_, by simpa [charSplitGo, hfit, h] using hrec.2⟩
          intro l hl
          simp only [charSplitGo, hfit, if_false, h, List.mem_cons] at hl
          rcases hl with rfl | hl
          · rcases hchunk with h0 | h0
            · exact absurd h0 h
            · exact h0
          · exact hrec.1 l hl

/-- Width invariant of the wrapping loop: every produced line either fits
within `w` or is a single character. -/
theorem wrapTokens_bound (m : List Char → ℚ) (w : ℚ) :
    ∀ (toks : List (List Char)) (current : List Char),
      (current = [] ∨ m current ≤ w ∨ current.length = 1) →
      ∀ l ∈ wrapTokens m w current toks, m l ≤ w ∨ l.length = 1 := by
  intro toks
  induction toks with
  | nil =>
      intro current hcur l hl
      by_cases h : current = [] <;> simp [wrapTokens, h] at hl
      rcases hcur with h0 | h0
      · exact absurd h0 h
      · exact hl ▸ h0
  | cons tok rest ih =>
      intro current hcur l hl
      by_cases hfit : m (if current = [] then tok else current ++ ' ' :: tok) ≤ w
      · exact ih _ (Or.inr (Or.inl hfit)) l (by simpa [wrapTokens, hfit] using hl)
      · have hflush : ∀ x ∈ (if current = [] then ([] : List (List Char)) else [current]),
            m x ≤ w ∨ x.length = 1 := by
          intro x hx
          by_cases h : current = [] <;> simp [h] at hx
          rcases hcur with h0 | h0
          · exact absurd h0 h
          · exact hx ▸ h0
        by_cases htok : m tok ≤ w
        · simp only [wrapTokens, hfit, if_false, htok, if_true, List.mem_append] at hl
          rcases hl with hl | hl
          · exact hflush l hl
          · exact ih tok (Or.inr (Or.inl htok)) l hl
        · have hcs := charSplitGo_bound m w tok [] (Or.inl rfl)
          simp only [wrapTokens, hfit, if_false, htok, charSplit, List.mem_append] at hl
          rcases hl with (hl | hl) | hl
          · exact hflush l hl
          · exact hcs.1 l hl
          · exact ih _ hcs.2 l hl

/-- C2 (amended): every line produced by `wrapTextSmart` either measures at
most `maxWidth`, or is a single character (which alone measures wider than
`maxWidth`).  The source (page.tsx lines 86-95) keeps an over-wide single
character as a chunk of its own, so such a character can become a line
wider than `maxWidth`. -/
theorem wrapTextSmart_line_fits_or_single_char
    (m : List Char → ℚ) (text : List Char) (maxWidth : ℚ) :
    ∀ l ∈ wrapTextSmart m text maxWidth, m l ≤ maxWidth ∨ l.length = 1 :=
  wrapTokens_bound m maxWidth (tokenize text) [] (Or.inl rfl)

/-- The live wall copy of the character-splitting loop computes the same
function as the paginated wall copy. -/
theorem charSplitLiveGo_eq (m : List Char → ℚ) (w : ℚ) :
    ∀ (cs chunk : List Char), charSplitLiveGo m w chunk cs = charSplitGo m w chunk cs := by
  intro cs
  induction cs with
  | nil => intro chunk; rfl
  | cons c cs ih =>
      intro chunk
      simp only [charSplitLiveGo, charSplitGo, ih]

/-- The generator copy of the character-splitting loop computes the same
function as the paginated wall copy. -/
theorem charSplitGenGo_eq (m : List Char → ℚ) (w : ℚ) :
    ∀ (cs chunk : List Char), charSplitGenGo m w chunk cs = charSplitGo m w chunk cs := by
  intro cs
  induction cs with
  | nil => intro chunk; rfl
  | cons c cs ih =>
      intro chunk
      simp only [charSplitGenGo, charSplitGo, ih]

/-- The live wall copy of the wrapping loop computes the same function as
the paginated wall copy. -/
theorem wrapTokensLive_eq (m : List Char → ℚ) (w : ℚ) :
    ∀ (toks : List (List Char)) (current : List Char),
      wrapTokensLive m w current toks = wrapTokens m w current toks := by
  intro toks
  induction toks with
  | nil => intro current; rfl
  | cons tok rest ih =>
      intro current
      simp only [wrapTokensLive, wrapTokens, charSplit, charSplitLiveGo_eq, ih]

/-- The generator copy of the wrapping loop computes the same function as
the paginated wall copy. -/
theorem wrapTokensGen_eq (m : List Char → ℚ) (w : ℚ) :
    ∀ (toks : List (List Char)) (current : List Char),
      wrapTokensGen m w current toks = wrapTokens m w current toks := by
  intro toks
  induction toks with
  | nil => intro current; rfl
  | cons tok rest ih =>
      intro current
      simp only [wrapTokensGen, wrapTokens, charSplit, charSplitGenGo_eq, ih]

/-- Splitting the empty string yields no tokens. -/
theorem tokenize_nil : tokenize [] = [] := rfl

/-- A list of lines each of which is a single token flat-maps under
`tokenize` to itself. -/
theorem flatMap_tokenize_of_units :
    ∀ ls : List (List Char), (∀ l ∈ ls, tokenize l = [l]) →
      ls.flatMap tokenize = ls := by
  intro ls
  induction ls with
  | nil => intro _; rfl
  | cons l ls ih =>
      intro h
      simp only [List.flatMap_cons, h l (by simp), ih (fun x hx => h x (by simp [hx]))]
      rfl

/-- Central bookkeeping lemma for the lossless-wrap property: flat-mapping
`tokenize` over the lines produced from a list of (nonempty,
whitespace-free) tokens recovers the tokens of the carried current line
followed by each input token, where an over-wide token is replaced by its
chunk decomposition.  Requires the measure to be monotone in the sense that
a suffix never measures wider than the whole string. -/
theorem wrapTokens_flatMap_tokenize (m : List Char → ℚ) (w : ℚ)
    (hm : ∀ a b : List Char, m b ≤ m (a ++ b)) :
    ∀ (toks : List (List Char)) (current : List Char),
      (∀ t ∈ toks, t ≠ [] ∧ ∀ c ∈ t, jsWhitespace c = false) →
      (wrapTokens m w current toks).flatMap tokenize
        = tokenize current
            ++ toks.flatMap (fun t => if m t ≤ w then [t] else chunksOf m w t) := by
  intro toks
  induction toks with
  | nil =>
      intro current _
      by_cases h : current = [] <;> simp [wrapTokens, h, tokenize, tokenizeAux]
  | cons tok rest ih =>
      intro current hgood
      have htok := hgood tok (by simp)
      have hrest := fun t ht => hgood t (List.mem_cons_of_mem tok ht)
      have htok1 : tokenize tok = [tok] := tokenize_eq_single tok htok.1 htok.2
      by_cases hfit : m (if current = [] then tok else current ++ ' ' :: tok) ≤ w
      · have hstep : (wrapTokens m w current (tok :: rest)).flatMap tokenize
            = (wrapTokens m w (if current = [] then tok else current ++ ' ' :: tok)
                rest).flatMap tokenize := by
          simp only [wrapTokens, hfit, if_true]
        rw [hstep, ih _ hrest]
        by_cases h : current = []
        · have hmt : m tok ≤ w := by simpa [h] using hfit
          simp [h, htok1, hmt, tokenize_nil]
        · have hmt : m tok ≤ w := by
            have := hm (current ++ [' ']) tok
            have hEq : (current ++ [' ']) ++ tok = current ++ ' ' :: tok := by simp
            rw [hEq] at this
            exact le_trans this (by simpa [h] using hfit)
          simp [h, tokenize_append_space, htok1, hmt]
      · by_cases htokw : m tok ≤ w
        · have hstep : (wrapTokens m w current (tok :: rest)).flatMap tokenize
              = ((if current = [] then ([] : List (List Char)) else [current])
                  ++ wrapTokens m w tok rest).flatMap tokenize := by
            simp only [wrapTokens, hfit, if_false, htokw, if_true]
          rw [hstep]
          rw [List.flatMap_append, ih tok hrest, htok1]
          by_cases h : current = [] <;> simp [h, htokw, tokenize, tokenizeAux]
        · have hstep : (wrapTokens m w current (tok :: rest)).flatMap tokenize
              = ((if current = [] then ([] : List (List Char)) else [current])
                  ++ (charSplit m w tok).1
                  ++ wrapTokens m w (charSplit m w tok).2 rest).flatMap tokenize := by
            simp only [wrapTokens, hfit, if_false, htokw]
          rw [hstep]
          rw [List.flatMap_append, List.flatMap_append, ih _ hrest]
          have hunits : (charSplit m w tok).1.flatMap tokenize = (charSplit m w tok).1 := by
            refine flatMap_tokenize_of_units _ ?_
            intro l hl
            refine tokenize_eq_single l (charSplitGo_ne_nil m w tok [] l hl) ?_
            exact (charSplitGo_not_ws m w tok [] (by simp) htok.2).1 l hl
          have hfin : tokenize (charSplit m w tok).2
              = if (charSplit m w tok).2 = [] then [] else [(charSplit m w tok).2] := by
            by_cases h2 : (charSplit m w tok).2 = []
            · simp [h2, tokenize, tokenizeAux]
            · simp only [h2, if_false]
              exact tokenize_eq_single _ h2
                ((charSplitGo_not_ws m w tok [] (by simp) htok.2).2)
          rw [hunits, hfin]
          by_cases h : current = [] <;>
            simp [h, htokw, chunksOf, charSplit, tokenize, tokenizeAux]

/-- Re-tokenizing the single-space join of a list of lines flat-maps
`tokenize` over the lines. -/
theorem tokenize_joinLines :
    ∀ ls : List (List Char), tokenize (joinLines ls) = ls.flatMap tokenize := by
  intro ls
  induction ls with
  | nil => rfl
  | cons l ls ih =>
      cases ls with
      | nil => simp [joinLines]
      | cons l₂ ls₂ =>
          simp only [joinLines, tokenize_append_space, List.flatMap_cons]
          rw [ih]
          simp [List.flatMap_cons]

/-- C3: `wrapTextSmart` is lossless.  Joining the produced lines with
single spaces and re-tokenizing on whitespace yields exactly the original
token sequence in order, except that each token measuring wider than
`maxWidth` appears as its consecutive chunk decomposition; and the chunks
of any token concatenate back to that token.  The measure is assumed
monotone (a suffix never measures wider than the whole string), as any
real text metric is. -/
theorem wrapTextSmart_lossless (m : List Char → ℚ) (text : List Char) (maxWidth : ℚ)
    (hm : ∀ a b : List Char, m b ≤ m (a ++ b)) :
    tokenize (joinLines (wrapTextSmart m text maxWidth))
        = (tokenize text).flatMap
            (fun t => if m t ≤ maxWidth then [t] else chunksOf m maxWidth t)
      ∧ ∀ tok : List Char, (chunksOf m maxWidth tok).flatten = tok := by
  constructor
  · rw [tokenize_joinLines]
    simp only [wrapTextSmart]
    rw [wrapTokens_flatMap_tokenize m maxWidth hm (tokenize text) []
        (tokenize_mem_good text)]
    simp [tokenize_nil]
  · intro tok
    have h := charSplitGo_flatten m maxWidth tok []
    simp only [List.nil_append] at h
    simp only [chunksOf, charSplit]
    by_cases h2 : (charSplitGo m maxWidth [] tok).2 = []
    · simpa [h2] using h
    · simpa [h2] using h

/-- Concrete sample measure for instantiating the wrap theorems: each
character is one unit wide. -/
def mLen : List Char → ℚ := fun s => (s.length : ℚ)

/-- C2 (counterexample): with a one-unit-per-character measure and
`maxWidth = 1/2 > 0`, the single character `a` is returned as a line of
measured width `1 > 1/2`, refuting the claim that no produced line ever
exceeds `maxWidth` even for a single character wider than `maxWidth`. -/
theorem wrapTextSmart_counterexample :
    (0 : ℚ) < 1/2 ∧ ∃ l ∈ wrapTextSmart mLen [Char.ofNat 97] (1/2), ¬ mLen l ≤ 1/2 := by
  constructor
  · norm_num
  · refine ⟨[Char.ofNat 97], ?_, by norm_num [mLen]⟩
    have h1 : ¬ mLen [Char.ofNat 97] ≤ 1/2 := by norm_num [mLen]
    simp [wrapTextSmart, tokenize, tokenizeAux, jsWhitespace, wrapTokens,
      charSplit, charSplitGo, h1]

/-- Witness instantiating the amended C2 theorem on a concrete line. -/
theorem wrapTextSmart_line_fits_or_single_char_witness :
    mLen [Char.ofNat 97] ≤ 1 ∨ ([Char.ofNat 97] : List Char).length = 1 := by
  refine wrapTextSmart_line_fits_or_single_char mLen [Char.ofNat 97] 1 [Char.ofNat 97] ?_
  have h1 : mLen [Char.ofNat 97] ≤ 1 := by norm_num [mLen]
  simp [wrapTextSmart, tokenize, tokenizeAux, jsWhitespace, wrapTokens, h1]

/-- Witness instantiating the lossless-wrap theorem at a concrete measure
and text. -/
theorem wrapTextSmart_lossless_witness :
    tokenize (joinLines (wrapTextSmart mLen [Char.ofNat 104, Char.ofNat 105] 8))
        = (tokenize [Char.ofNat 104, Char.ofNat 105]).flatMap
            (fun t => if mLen t ≤ 8 then [t] else chunksOf mLen 8 t)
      ∧ ∀ tok : List Char, (chunksOf mLen 8 tok).flatten = tok := by
  refine wrapTextSmart_lossless mLen [Char.ofNat 104, Char.ofNat 105] 8 ?_
  intro a b
  have h := Nat.le_add_left b.length a.length
  simp only [mLen, List.length_append]
  exact_mod_cast h

/-- C10: the three textual copies of `wrapTextSmart` — paginated wall page
(lines 59-99), live wall page (lines 908-948) and generator page (lines
1819-1861) — are extensionally equal: on every measurement context, text
and maximum width they return the identical list of lines. -/
theorem wrapTextSmart_copies_eq (m : List Char → ℚ) (text : List Char) (maxWidth : ℚ) :
    wrapTextSmartLive m text maxWidth = wrapTextSmart m text maxWidth
      ∧ wrapTextSmartGen m text maxWidth = wrapTextSmart m text maxWidth :=
  ⟨wrapTokensLive_eq m maxWidth (tokenize text) [],
    wrapTokensGen_eq m maxWidth (tokenize text) []⟩

/-- Embedding of `computeSafeStartY` (page.tsx lines 2057-2068): center the
block of height `blockH` on `contentY`, clamp to the top margin, clamp to
the bottom margin, and re-clamp to the top margin.  The wall renderer
inlines the same three clamp steps at page.tsx lines 483-486. -/
def computeSafeStartY (contentY blockH safeTop safeBottom : ℚ) : ℚ :=
  let y₀ := contentY - blockH / 2
  let y₁ := if y₀ < safeTop then safeTop else y₀
  let y₂ := if y₁ + blockH > safeBottom then safeBottom - blockH else y₁
  if y₂ < safeTop then safeTop else y₂

/-- C4: for a block that fits the safe zone, `computeSafeStartY` keeps the
whole block within `[safeTop, safeBottom]`; an over-tall block is pinned
exactly to `safeTop`. -/
theorem computeSafeStartY_containment (contentY blockH safeTop safeBottom : ℚ)
    (hb : 0 ≤ blockH) (hst : safeTop ≤ safeBottom) :
    (blockH ≤ safeBottom - safeTop →
        safeTop ≤ computeSafeStartY contentY blockH safeTop safeBottom ∧
          computeSafeStartY contentY blockH safeTop safeBottom + blockH ≤ safeBottom) ∧
      (blockH > safeBottom - safeTop →
        computeSafeStartY contentY blockH safeTop safeBottom = safeTop) := by
  unfold computeSafeStartY
  dsimp only
  constructor
  · intro hfits
    split_ifs <;> constructor <;> linarith
  · intro hover
    split_ifs <;> linarith

/-- Witness instantiating the clamp-containment theorem at concrete
numbers. -/
theorem computeSafeStartY_containment_witness :
    ((2 : ℚ) ≤ 9 - 1 →
        (1 : ℚ) ≤ computeSafeStartY 5 2 1 9 ∧ computeSafeStartY 5 2 1 9 + 2 ≤ 9) ∧
      ((2 : ℚ) > 9 - 1 → computeSafeStartY 5 2 1 9 = 1) :=
  computeSafeStartY_containment 5 2 1 9 (by norm_num) (by norm_num)

/-- Color palette entry (page.tsx line 1631): background, foreground text
and accent colors as CSS color strings. -/
structure Palette where
  bg : String
  text : String
  accent : String
deriving DecidableEq, BEq, Repr

/-- Font pair (page.tsx line 1632): quote and author font families. -/
structure FontPack where
  quote : String
  author : String
deriving DecidableEq, BEq, Repr

/-- Design descriptor produced by the selector (page.tsx lines 1633-1640). -/
structure Design where
  palette : Palette
  gradient : String × String
  font : FontPack
  bgType : String
  layout : String
  seed : ℚ
deriving DecidableEq, Repr

/-- Palette catalog `PALETTES` (page.tsx lines 1665-1677). -/
def PALETTES : List Palette :=
  [⟨"#FFF5F5", "#2D3748", "#E53E3E"⟩,
   ⟨"#EBF8FF", "#1A365D", "#2B6CB0"⟩,
   ⟨"#F0FFF4", "#1C4532", "#2F855A"⟩,
   ⟨"#FFFAF0", "#5F370E", "#DD6B20"⟩,
   ⟨"#FAF5FF", "#2A1F55", "#6B46C1"⟩,
   ⟨"#FFF5F7", "#521B41", "#B83280"⟩,
   ⟨"#E6FFFA", "#234E52", "#2C7A7B"⟩,
   ⟨"#F7FAFC", "#1A202C", "#4A5568"⟩,
   ⟨"#0B1020", "#E6E6EA", "#7C3AED"⟩,
   ⟨"#0F172A", "#E2E8F0", "#38BDF8"⟩,
   ⟨"#111827", "#F9FAFB", "#F59E0B"⟩]

/-- Gradient catalog `GRADIENTS` (page.tsx lines 1679-1690). -/
def GRADIENTS : List (String × String) :=
  [("#667eea", "#764ba2"),
   ("#4facfe", "#00f2fe"),
   ("#f093fb", "#f5576c"),
   ("#43e97b", "#38f9d7"),
   ("#fa709a", "#fee140"),
   ("#30cfd0", "#330867"),
   ("#a8edea", "#fed6e3"),
   ("#ff9a9e", "#fad0c4"),
   ("#1f2937", "#111827"),
   ("#0ea5e9", "#22c55e")]

/-- Font catalog `FONTS` (page.tsx lines 1692-1702). -/
def FONTS : List FontPack :=
  [⟨"Georgia, serif", "Georgia, serif"⟩,
   ⟨"Palatino, serif", "Palatino, serif"⟩,
   ⟨"Garamond, serif", "Garamond, serif"⟩,
   ⟨"-apple-system, BlinkMacSystemFont, sans-serif",
     "-apple-system, BlinkMacSystemFont, sans-serif"⟩,
   ⟨"Trebuchet MS, sans-serif", "Trebuchet MS, sans-serif"⟩,
   ⟨"Verdana, sans-serif", "Verdana, sans-serif"⟩]

/-- Style pack: the background-kind and layout-kind sub-catalogs attached
to a pack name (page.tsx lines 1704-1741). -/
structure StylePack where
  bgTypes : List String
  layouts : List String
deriving DecidableEq, Repr

/-- Balanced style pack (page.tsx lines 1708-1728), also the fallback. -/
def balancedPack : StylePack :=
  ⟨["solid", "gradient", "paper", "noise", "halftone", "blobs", "glass", "stripes"],
   ["centered", "left", "split", "underline", "footer", "corner-frame", "diagonal"]⟩

/-- Style pack table `STYLE_PACKS` (page.tsx lines 1704-1741). -/
def STYLE_PACKS : List (String × StylePack) :=
  [("balanced", balancedPack),
   ("bold", ⟨["gradient", "dark", "stripes", "blobs"],
             ["split", "diagonal", "side-stripe", "corner-frame"]⟩),
   ("minimal", ⟨["solid", "paper"],
                ["centered", "left", "underline", "footer", "bordered"]⟩),
   ("playful", ⟨["gradient", "halftone", "blobs", "noise", "paper"],
                ["icon-top", "split", "diagonal", "underline"]⟩)]

/-- Export format key (page.tsx line 1629). -/
inductive FormatKey where
  | square
  | portrait
  | landscape
deriving DecidableEq, Repr

/-- Minimum export dimensions per format, table `FORMATS` (page.tsx lines
1657-1662). -/
def FORMATS : FormatKey → ℚ × ℚ
  | FormatKey.square => (1080, 1080)
  | FormatKey.portrait => (1080, 1350)
  | FormatKey.landscape => (1600, 900)

/-- Text alignment values the renderers assign to `ctx.textAlign`. -/
inductive TextAlign where
  | center
  | left
deriving DecidableEq, Repr

/-- Canvas draw call, recorded with its parameters.  The embedding models a
render as the list of draw calls it issues; geometric detail computed by
the host (bezier curves of the heart path, the cosines of the star points)
is summarized by the call parameters that determine it. -/
inductive DrawOp where
  | clipRounded (x y w h r : ℚ)
  | fillRect (color : String) (alpha : ℚ) (x y w h : ℚ)
  | linearGradientRect (c0 c1 : String) (x y w h : ℚ)
  | grain (w h amount seed : ℚ)
  | stripeLine (color : String) (lineWidth x0 y0 x1 y1 : ℚ)
  | dot (color : String) (alpha x y r : ℚ)
  | strokeRect (color : String) (lineWidth x y w h : ℚ)
  | cornerMarks (color : String) (lineWidth pad arm w h : ℚ)
  | triangle (color : String) (alpha x0 y0 x1 y1 x2 y2 : ℚ)
  | heart (color : String) (x y size seed : ℚ)
  | star (color : String) (x y size seed : ℚ)
  | fillText (content : List Char) (x y : ℚ) (font color : String) (align : TextAlign)
deriving DecidableEq, Repr

/-- Average color triple produced by the pixel sampler; components are
rationals because `sampleAverageRgb` returns per-channel means. -/
structure Rgb where
  r : ℚ
  g : ℚ
  b : ℚ
deriving DecidableEq, Repr

/-- Value of one hexadecimal digit, as recognized by `parseInt(-, 16)`. -/
def hexDigitVal (c : Char) : Option ℕ :=
  if '0' ≤ c ∧ c ≤ '9' then some (c.toNat - '0'.toNat)
  else if 'a' ≤ c ∧ c ≤ 'f' then some (c.toNat - 'a'.toNat + 10)
  else if 'A' ≤ c ∧ c ≤ 'F' then some (c.toNat - 'A'.toNat + 10)
  else none

/-- Value of the maximal hexadecimal prefix, as computed by
`parseInt(full, 16)`.  When no digit is valid, `parseInt` returns NaN and
the bit operations of `hexToRgb` then produce 0; returning the accumulator
0 models that endpoint directly. -/
def hexPrefixVal (acc : ℕ) : List Char → ℕ
  | [] => acc
  | c :: cs =>
      match hexDigitVal c with
      | some d => hexPrefixVal (16 * acc + d) cs
      | none => acc

/-- Whitespace trim applied by `hex.replace("#", "").trim()`. -/
def trimWS (l : List Char) : List Char :=
  ((l.dropWhile jsWhitespace).reverse.dropWhile jsWhitespace).reverse

/-- Embedding of `hexToRgb` (page.tsx lines 137-148 and 2102-2113,
identical copies): strip the first `#`, trim, expand 3-digit shorthand, and
split the parsed value into 8-bit channels. -/
def hexToRgb (hex : String) : Rgb :=
  let h := trimWS (hex.toList.eraseP (fun c => c == '#'))
  let full := if h.length = 3 then h.flatMap (fun c => [c, c]) else h
  let n := hexPrefixVal 0 full
  ⟨((n >>> 16) &&& 255 : ℕ), ((n >>> 8) &&& 255 : ℕ), ((n &&& 255 : ℕ))⟩

/-- Embedding of `mixRgb` (page.tsx lines 158-168 and 2124-2134, identical
copies).  `Math.round` rounds half toward positive infinity, which is
Mathlib `round` on `ℚ`. -/
def mixRgb (a b : Rgb) (t : ℚ) : Rgb :=
  ⟨(round (a.r + (b.r - a.r) * t) : ℤ),
   (round (a.g + (b.g - a.g) * t) : ℤ),
   (round (a.b + (b.b - a.b) * t) : ℤ)⟩

/-- CSS `rgb(r, g, b)` string built at page.tsx line 230 / 2204. -/
def rgbCss (c : Rgb) : String :=
  "rgb(" ++ toString c.r ++ ", " ++ toString c.g ++ ", " ++ toString c.b ++ ")"

/-- Embedding of `chooseTextColors` (page.tsx lines 198-235 and 2166-2209,
identical copies).  The pixel sampler `sampleAverageRgb` reads the raster
produced by the draw calls issued so far, so it is abstracted as `sample`
over the recorded trace; sRGB relative luminance `relLuma` computes
`Math.pow(-, 2.4)` on host floats and is abstracted as `lum`.  Returns the
pair (quote color, author color). -/
def chooseTextColors (lum : Rgb → ℚ)
    (sample : List DrawOp → ℚ → ℚ → ℚ → ℚ → Rgb) (ops : List DrawOp)
    (width height : ℚ) (palette : Palette) : String × String :=
  let sx := width * 0.22
  let sy := height * 0.3
  let sw := width * 0.56
  let sh := height * 0.4
  let avg := sample ops sx sy sw sh
  let L := lum avg
  let isLightBg := decide (L > 0.55)
  let quoteColor := if isLightBg then "#111827" else "#FFFFFF"
  let authorColor :=
    if !isLightBg then "rgba(255,255,255,0.85)"
    else
      let acc := hexToRgb palette.accent
      let quoteRgb := hexToRgb quoteColor
      let accL := lum acc
      let quoteL := lum quoteRgb
      let contrast := (max accL quoteL + 0.05) / (min accL quoteL + 0.05)
      if contrast < 2.2 then rgbCss (mixRgb acc quoteRgb 0.55) else palette.accent
  (quoteColor, authorColor)

/-- C5: whenever the sampled average background luminance is at most 0.55,
`chooseTextColors` returns white quote text and translucent white author
text; in particular the author color is not the accent color of any
catalog palette (whose accents are all hex strings). -/
theorem chooseTextColors_dark (lum : Rgb → ℚ)
    (sample : List DrawOp → ℚ → ℚ → ℚ → ℚ → Rgb) (ops : List DrawOp)
    (width height : ℚ) (palette : Palette)
    (hdark : lum (sample ops (width * 0.22) (height * 0.3) (width * 0.56)
        (height * 0.4)) ≤ 0.55) :
    chooseTextColors lum sample ops width height palette
        = ("#FFFFFF", "rgba(255,255,255,0.85)")
      ∧ ∀ p ∈ PALETTES,
          (chooseTextColors lum sample ops width height palette).2 ≠ p.accent := by
  have hnot : ¬ (lum (sample ops (width * 0.22) (height * 0.3) (width * 0.56)
      (height * 0.4)) > 0.55) := not_lt.mpr hdark
  have hmain : chooseTextColors lum sample ops width height palette
      = ("#FFFFFF", "rgba(255,255,255,0.85)") := by
    simp [chooseTextColors, hnot]
  refine ⟨hmain, ?_⟩
  rw [hmain]
  intro p hp
  fin_cases hp <;> decide

/-- Witness instantiating the dark-background color theorem. -/
theorem chooseTextColors_dark_witness :
    chooseTextColors (fun _ => 0) (fun _ _ _ _ _ => ⟨0, 0, 0⟩) [] 1 1
        ⟨"#FFF5F5", "#2D3748", "#E53E3E"⟩
        = ("#FFFFFF", "rgba(255,255,255,0.85)")
      ∧ ∀ p ∈ PALETTES,
          (chooseTextColors (fun _ => 0) (fun _ _ _ _ _ => ⟨0, 0, 0⟩) [] 1 1
            ⟨"#FFF5F5", "#2D3748", "#E53E3E"⟩).2 ≠ p.accent :=
  chooseTextColors_dark (fun _ => 0) (fun _ _ _ _ _ => ⟨0, 0, 0⟩) [] 1 1
    ⟨"#FFF5F5", "#2D3748", "#E53E3E"⟩ (by norm_num)

/-- Embedding of `pick` (page.tsx lines 1768-1770):
`arr[Math.floor(seededRandom(seed) * arr.length)]`.  The out-of-range
access that JavaScript would answer with `undefined` (only possible when
`rnd` leaves its contractual range `[0,1)`) is answered with the supplied
default element. -/
def pick {α : Type} (arr : List α) (dflt : α) (rnd : ℚ → ℚ) (seed : ℚ) : α :=
  arr.getD (⌊rnd seed * (arr.length : ℚ)⌋).toNat dflt

/-- Embedding of `generateDesign` (page.tsx lines 1772-1780).  The source
increments its local `seed` after each pick (`seed++`), so the five picks
use `seed`..`seed+4` and the stored seed is `seed+5`.  The style pack comes
from `STYLE_PACKS[name] || STYLE_PACKS.balanced`. -/
def generateDesign (rnd : ℚ → ℚ) (packName : String) (seed : ℚ) : Design :=
  let pack := (STYLE_PACKS.lookup packName).getD balancedPack
  let palette := pick PALETTES ⟨"", "", ""⟩ rnd seed
  let gradient := pick GRADIENTS ("", "") rnd (seed + 1)
  let font := pick FONTS ⟨"", ""⟩ rnd (seed + 2)
  let bgType := pick pack.bgTypes "" rnd (seed + 3)
  let layout := pick pack.layouts "" rnd (seed + 4)
  { palette := palette, gradient := gradient, font := font,
    bgType := bgType, layout := layout, seed := seed + 5 }

/-- Collision hash of a design (page.tsx lines 2091-2093):
`bgType-layout-paletteIndex-quoteFont`. -/
def designHash (d : Design) : String :=
  d.bgType ++ "-" ++ d.layout ++ "-" ++ toString (List.indexOf d.palette PALETTES)
    ++ "-" ++ d.font.quote

/-- Collision tuple named by the batch-uniqueness property:
(background kind, layout kind, palette index, quote font). -/
def designTuple (d : Design) : String × String × ℕ × String :=
  (d.bgType, d.layout, List.indexOf d.palette PALETTES, d.font.quote)

/-- Retry loop of `makeDesigns` (page.tsx lines 2084-2095), a do-while on
`used.has(hash) && tries < 60`.  The seed of attempt `tries` is
`baseSeed + i*1000 + tries*111`; `fuel` bounds the recursion and is started
at 60, matching the 60-attempt budget (the loop exits no later than
`tries + 1 = 60`). -/
def retryLoop (rnd : ℚ → ℚ) (packName : String) (baseSeed : ℚ) (i : ℕ)
    (used : List String) : ℕ → ℕ → Design × String
  | tries, 0 =>
      let d := generateDesign rnd packName (baseSeed + (i : ℚ) * 1000 + (tries : ℚ) * 111)
      (d, designHash d)
  | tries, fuel + 1 =>
      let d := generateDesign rnd packName (baseSeed + (i : ℚ) * 1000 + (tries : ℚ) * 111)
      let h := designHash d
      if h ∈ used ∧ tries + 1 < 60 then
        retryLoop rnd packName baseSeed i used (tries + 1) fuel
      else (d, h)

/-- Batch loop of `makeDesigns` (page.tsx lines 2084-2098) instrumented
with the loop exit condition: each produced entry records the design, its
hash, and a flag that is true exactly when the hash was already in `used`
at acceptance time — that is, when the 60-attempt budget was exhausted and
a duplicate was accepted.  The JS `Set` of hashes is modelled as the list
of recorded hashes. -/
def makeDesignsFrom (rnd : ℚ → ℚ) (packName : String) (baseSeed : ℚ) :
    ℕ → ℕ → List String → List (Design × String × Bool)
  | _, 0, _ => []
  | i, n + 1, used =>
      let r := retryLoop rnd packName baseSeed i used 0 60
      (r.1, r.2, decide (r.2 ∈ used))
        :: makeDesignsFrom rnd packName baseSeed (i + 1) n (r.2 :: used)

/-- Embedding of `makeDesigns` (page.tsx lines 2079-2100).  The
`Date.now()` base seed is a parameter. -/
def makeDesigns (rnd : ℚ → ℚ) (packName : String) (baseSeed : ℚ) (count : ℕ) :
    List Design :=
  (makeDesignsFrom rnd packName baseSeed 0 count []).map (fun r => r.1)

/-- The hash recorded by the retry loop is the hash of the returned
design. -/
theorem retryLoop_hash (rnd : ℚ → ℚ) (packName : String) (baseSeed : ℚ) (i : ℕ)
    (used : List String) :
    ∀ (fuel tries : ℕ),
      (retryLoop rnd packName baseSeed i used tries fuel).2
        = designHash (retryLoop rnd packName baseSeed i used tries fuel).1 := by
  intro fuel
  induction fuel with
  | zero => intro tries; rfl
  | succ fuel ih =>
      intro tries
      by_cases h : designHash (generateDesign rnd packName
          (baseSeed + (i : ℚ) * 1000 + (tries : ℚ) * 111)) ∈ used ∧ tries + 1 < 60
      · simpa [retryLoop, h] using ih (tries + 1)
      · simp [retryLoop, h]

/-- Every entry of the batch loop records the hash of its design. -/
theorem makeDesignsFrom_hash_eq (rnd : ℚ → ℚ) (packName : String) (baseSeed : ℚ) :
    ∀ (n i : ℕ) (used : List String),
      ∀ r ∈ makeDesignsFrom rnd packName baseSeed i n used, r.2.1 = designHash r.1 := by
  intro n
  induction n with
  | zero => intro i used r hr; simp [makeDesignsFrom] at hr
  | succ n ih =>
      intro i used r hr
      simp only [makeDesignsFrom, List.mem_cons] at hr
      rcases hr with rfl | hr
      · exact retryLoop_hash rnd packName baseSeed i used 60 0
      · exact ih (i + 1) _ r hr

/-- The batch loop never drops a card: one design per requested index. -/
theorem makeDesignsFrom_length (rnd : ℚ → ℚ) (packName : String) (baseSeed : ℚ) :
    ∀ (n i : ℕ) (used : List String),
      (makeDesignsFrom rnd packName baseSeed i n used).length = n := by
  intro n
  induction n with
  | zero => intro i used; rfl
  | succ n ih => intro i used; simp [makeDesignsFrom, ih]

/-- If no entry of the batch loop accepted a duplicate, the recorded hashes
are pairwise distinct and avoid the initial `used` list. -/
theorem makeDesignsFrom_hashes_distinct (rnd : ℚ → ℚ) (packName : String)
    (baseSeed : ℚ) :
    ∀ (n i : ℕ) (used : List String),
      (∀ r ∈ makeDesignsFrom rnd packName baseSeed i n used, r.2.2 = false) →
      ((makeDesignsFrom rnd packName baseSeed i n used).map
          (fun r => r.2.1)).Pairwise (· ≠ ·) ∧
        ∀ r ∈ makeDesignsFrom rnd packName baseSeed i n used, r.2.1 ∉ used := by
  intro n
  induction n with
  | zero => intro i used _; simp [makeDesignsFrom]
  | succ n ih =>
      intro i used hflags
      have hhead := hflags ((retryLoop rnd packName baseSeed i used 0 60).1,
        (retryLoop rnd packName baseSeed i used 0 60).2,
        decide ((retryLoop rnd packName baseSeed i used 0 60).2 ∈ used))
        (by simp [makeDesignsFrom])
      have hnotmem : (retryLoop rnd packName baseSeed i used 0 60).2 ∉ used := by
        simpa using hhead
      have hrest := ih (i + 1) ((retryLoop rnd packName baseSeed i used 0 60).2 :: used)
        (by intro r hr; exact hflags r (by simp [makeDesignsFrom, hr]))
      constructor
      · simp only [makeDesignsFrom, List.map_cons, List.pairwise_cons]
        refine ⟨?_, hrest.1⟩
        intro h hh
        rcases List.mem_map.mp hh with ⟨r, hr, rfl⟩
        have := hrest.2 r hr
        simp only [List.mem_cons, not_or] at this
        exact fun hEq => this.1 hEq.symm
      · intro r hr
        simp only [makeDesignsFrom, List.mem_cons] at hr
        rcases hr with rfl | hr
        · exact hnotmem
        · have := hrest.2 r hr
          simp only [List.mem_cons, not_or] at this
          exact this.2

/-- Equal collision tuples give equal collision hashes (the hash string is
built from exactly the tuple components). -/
theorem designHash_congr (d₁ d₂ : Design) (h : designTuple d₁ = designTuple d₂) :
    designHash d₁ = designHash d₂ := by
  simp only [designTuple, Prod.mk.injEq] at h
  simp only [designHash, h.1, h.2.1, h.2.2.1, h.2.2.2]

/-- C6: for a batch of at most 12 designs, `makeDesigns` yields pairwise
distinct (background kind, layout kind, palette index, quote font) tuples
whenever no card exhausted its 60-attempt retry budget (hypothesis
`hfresh`: no instrumented entry accepted a duplicate hash), and one design
is produced per card regardless.  Termination of each retry loop within 60
attempts is structural in the embedding (`retryLoop` consumes fuel started
at 60); a card that does exhaust the budget is still appended, which is why
the length conjunct needs no freshness hypothesis. -/
theorem makeDesigns_tuples_distinct (rnd : ℚ → ℚ) (packName : String)
    (baseSeed : ℚ) (count : ℕ) (hcount : count ≤ 12)
    (hfresh : ∀ r ∈ makeDesignsFrom rnd packName baseSeed 0 count [], r.2.2 = false) :
    ((makeDesigns rnd packName baseSeed count).map designTuple).Pairwise (· ≠ ·) ∧
      (makeDesigns rnd packName baseSeed count).length = count := by
  constructor
  · have hpair := (makeDesignsFrom_hashes_distinct rnd packName baseSeed count 0 []
      hfresh).1
    rw [List.pairwise_map] at hpair
    simp only [makeDesigns, List.map_map, List.pairwise_map]
    refine List.Pairwise.imp_of_mem ?_ hpair
    intro a b ha hb hne
    intro htup
    refine hne ?_
    rw [makeDesignsFrom_hash_eq rnd packName baseSeed count 0 [] a ha,
      makeDesignsFrom_hash_eq rnd packName baseSeed count 0 [] b hb]
    exact designHash_congr a.1 b.1 htup
  · simp [makeDesigns, makeDesignsFrom_length]

/-- Witness instantiating the batch-uniqueness theorem on a singleton
batch. -/
theorem makeDesigns_tuples_distinct_witness :
    ((makeDesigns (fun _ => 0) "balanced" 0 1).map designTuple).Pairwise (· ≠ ·) ∧
      (makeDesigns (fun _ => 0) "balanced" 0 1).length = 1 := by
  refine makeDesigns_tuples_distinct (fun _ => 0) "balanced" 0 1 (by norm_num) ?_
  intro r hr
  simp only [makeDesignsFrom, List.mem_cons] at hr
  rcases hr with rfl | hr
  · simp
  · simp [makeDesignsFrom] at hr

/-- Effective corner radius of `roundedRectPath` (page.tsx lines 101-117,
950-966 and 1782-1798, identical copies): the requested radius clamped to
`[0, min(w, h)/2]`. -/
def effRadius (r w h : ℚ) : ℚ :=
  max 0 (min r (min w h / 2))

/-- JavaScript `x || d` at the numeric call sites (`Number(card.width) || 1`,
`Number(card.quoteSizeMultiplier || 100)`): a falsy 0 is replaced by the
default. -/
def jsOr (x dflt : ℚ) : ℚ :=
  if x = 0 then dflt else x

/-- Truthiness of `s.trim()` as used in the author guards: the string
contains a non-whitespace character. -/
def hasContent (s : List Char) : Bool :=
  s.any (fun c => !jsWhitespace c)

/-- Paper speckles (page.tsx lines 368-375 / 2287-2294): 90 accent 2×2
rectangles at seeded positions, alpha 0.06. -/
def speckleOps (rnd : ℚ → ℚ) (seed width height : ℚ) (accent : String) : List DrawOp :=
  (List.range 90).map fun i =>
    DrawOp.fillRect accent 0.06 (rnd (seed + (i : ℚ)) * width)
      (rnd (seed + (i : ℚ) + 100) * height) 2 2

/-- Iteration count of the stripe loop
`for (let i = -height; i < width + height; i += 60)`: the naturals `k` with
`-height + 60k < width + height`, i.e. `k < (width + 2*height)/60`; for a
rational strict bound `q` that is `max 0 ⌈q⌉` values (an integral bound `q`
contributes exactly `q`). -/
def stripeCount (width height : ℚ) : ℕ :=
  (⌈(width + 2 * height) / 60⌉).toNat

/-- Diagonal stripes (page.tsx lines 380-390 / 2299-2309): translucent
lines of width 14 from `(i, 0)` to `(i + height, height)` every 60px. -/
def stripeOps (width height : ℚ) : List DrawOp :=
  (List.range (stripeCount width height)).map fun k =>
    DrawOp.stripeLine "rgba(0,0,0,0.05)" 14 (-height + 60 * (k : ℚ)) 0
      (-height + 60 * (k : ℚ) + height) height

/-- Iteration count of one halftone axis `for (v = 0; v < len; v += 26)`. -/
def halftoneCount (len : ℚ) : ℕ :=
  (⌈len / 26⌉).toNat

/-- Halftone dot grid (page.tsx lines 391-403 / 2310-2322): 26px grid of
translucent dots with seeded radius jitter, outer loop on y. -/
def halftoneOps (rnd : ℚ → ℚ) (seed width height : ℚ) : List DrawOp :=
  (List.range (halftoneCount height)).flatMap fun ky =>
    (List.range (halftoneCount width)).map fun kx =>
      DrawOp.dot "rgba(0,0,0,0.05)" 1 (26 * (kx : ℚ)) (26 * (ky : ℚ))
        (2 + rnd (seed + 26 * (kx : ℚ) * 7 + 26 * (ky : ℚ) * 11) * 3)

/-- Accent blobs (page.tsx lines 404-417 / 2323-2336): 3 large translucent
circles at seeded positions and radii, alpha 0.22. -/
def blobOps (rnd : ℚ → ℚ) (seed width height : ℚ) (accent : String) : List DrawOp :=
  (List.range 3).map fun i =>
    DrawOp.dot accent 0.22 (rnd (seed + (i : ℚ) * 10) * width)
      (rnd (seed + (i : ℚ) * 10 + 1) * height)
      (120 + rnd (seed + (i : ℚ) * 10 + 2) * 260)

/-- Background renderer (page.tsx lines 348-421 of the wall `renderCard`
and 2267-2340 of the generator `renderCard`, identical if-chains).
Dispatches on the background-kind tag; an unrecognized tag (including
`solid` itself, which has no case of its own) falls through to the final
`else`, a solid fill with the palette background color. -/
def bgOps (rnd : ℚ → ℚ) (d : Design) (width height : ℚ) : List DrawOp :=
  if d.bgType = "gradient" ∨ d.bgType = "glass" then
    DrawOp.linearGradientRect d.gradient.1 d.gradient.2 0 0 width height
      :: (if d.bgType = "glass" then
            [DrawOp.fillRect "rgba(255,255,255,0.16)" 1 0 0 width height]
          else [])
  else if d.bgType = "dark" then
    [DrawOp.fillRect d.palette.bg 1 0 0 width height,
     DrawOp.fillRect "rgba(255,255,255,0.04)" 1 0 0 width height]
  else if d.bgType = "paper" then
    DrawOp.fillRect "#ffffff" 1 0 0 width height
      :: speckleOps rnd d.seed width height d.palette.accent
  else if d.bgType = "noise" then
    [DrawOp.fillRect d.palette.bg 1 0 0 width height,
     DrawOp.grain width height 0.08 d.seed]
  else if d.bgType = "stripes" then
    DrawOp.fillRect d.palette.bg 1 0 0 width height :: stripeOps width height
  else if d.bgType = "halftone" then
    DrawOp.fillRect d.palette.bg 1 0 0 width height
      :: halftoneOps rnd d.seed width height
  else if d.bgType = "blobs" then
    DrawOp.fillRect d.palette.bg 1 0 0 width height
      :: blobOps rnd d.seed width height d.palette.accent
  else
    [DrawOp.fillRect d.palette.bg 1 0 0 width height]

/-- Decoration renderer `drawDoodles` (page.tsx lines 237-317 and
1966-2055, identical copies): 10 seeded hearts/stars, skipping any shape
whose center falls within 0.26×min(width, height) of the card center.  The
skip test `Math.hypot(dx, dy) < t` is embedded as `dx² + dy² < t²`, which
is equivalent since both callers pass `t = 0.26 * min(width, height) ≥ 0`
(card dimensions are clamped to at least 1). -/
def doodleOps (rnd : ℚ → ℚ) (width height : ℚ) (color : String) (seed : ℚ) :
    List DrawOp :=
  (List.range 10).flatMap fun i =>
    let x := rnd (seed + (i : ℚ) * 11) * width
    let y := rnd (seed + (i : ℚ) * 11 + 1) * height
    let size := 7 + rnd (seed + (i : ℚ) * 11 + 2) * 12
    if (x - width / 2) ^ 2 + (y - height / 2) ^ 2 < (min width height * 0.26) ^ 2 then
      []
    else if (⌊rnd (seed + (i : ℚ) * 19) * 2⌋ : ℤ) = 0 then
      [DrawOp.heart color x y size (seed + (i : ℚ) * 101)]
    else
      [DrawOp.star color x y (size * 0.9) (seed + (i : ℚ) * 101)]

/-- Content anchor, alignment, available width and accent draw calls chosen
by a layout tag. -/
structure LayoutState where
  ops : List DrawOp
  contentX : ℚ
  contentY : ℚ
  align : TextAlign
  innerMax : ℚ
deriving DecidableEq, Repr

/-- Layout dispatch of the wall `renderCard` (page.tsx lines 426-458): only
`left`, `icon-top` and `split` have cases; everything else keeps the
defaults (anchor 52% height, centered, width minus twice the padding, no
accent draw). -/
def wallLayout (d : Design) (width height padding : ℚ) : LayoutState :=
  if d.layout = "left" then
    ⟨[], padding, height * 0.46, TextAlign.left, width - padding * 2⟩
  else if d.layout = "icon-top" then
    ⟨[DrawOp.dot d.palette.accent 0.25 (width * 0.5) (height * 0.22) 54],
      width * 0.5, height * 0.56, TextAlign.center, width - padding * 2⟩
  else if d.layout = "split" then
    (if height ≥ width then
      ⟨[DrawOp.fillRect d.palette.accent 0.18 0 0 width (height * 0.32)],
        width * 0.5, height * 0.58, TextAlign.center, width - padding * 2⟩
    else
      ⟨[DrawOp.fillRect d.palette.accent 0.18 0 0 (width * 0.32) height],
        width * 0.38, height * 0.52, TextAlign.left, width * 0.55⟩)
  else
    ⟨[], width * 0.5, height * 0.52, TextAlign.center, width - padding * 2⟩

/-- Layout dispatch of the generator `renderCard` (page.tsx lines
2349-2431).  Unrecognized tags — including `centered` and `side-stripe`,
which have no cases — keep the defaults: anchor 52% height, centered,
width minus twice the padding, no accent draw. -/
def genLayout (d : Design) (width height padding : ℚ) : LayoutState :=
  if d.layout = "left" then
    ⟨[], padding, height * 0.46, TextAlign.left, width - padding * 2⟩
  else if d.layout = "icon-top" then
    ⟨[DrawOp.dot d.palette.accent 0.25 (width * 0.5) (height * 0.22) 54],
      width * 0.5, height * 0.56, TextAlign.center, width - padding * 2⟩
  else if d.layout = "bordered" then
    ⟨[DrawOp.strokeRect d.palette.accent 7 (padding / 2) (padding / 2)
        (width - padding) (height - padding)],
      width * 0.5, height * 0.52, TextAlign.center, width - padding * 3⟩
  else if d.layout = "split" then
    (if height ≥ width then
      ⟨[DrawOp.fillRect d.palette.accent 0.18 0 0 width (height * 0.32)],
        width * 0.5, height * 0.58, TextAlign.center, width - padding * 2⟩
    else
      ⟨[DrawOp.fillRect d.palette.accent 0.18 0 0 (width * 0.32) height],
        width * 0.38, height * 0.52, TextAlign.left, width * 0.55⟩)
  else if d.layout = "underline" then
    ⟨[DrawOp.fillRect d.palette.accent 0.22 padding (height * 0.72)
        (width - padding * 2) 10],
      width * 0.5, height * 0.52, TextAlign.center, width - padding * 2⟩
  else if d.layout = "footer" then
    ⟨[DrawOp.fillRect d.palette.accent 0.18 0 (height * 0.82) width (height * 0.18)],
      width * 0.5, height * 0.48, TextAlign.center, width - padding * 2⟩
  else if d.layout = "corner-frame" then
    ⟨[DrawOp.cornerMarks d.palette.accent 8 (padding * 0.6) (padding * 0.9)
        width height],
      width * 0.5, height * 0.52, TextAlign.center, width - padding * 2.4⟩
  else if d.layout = "diagonal" then
    ⟨[DrawOp.triangle d.palette.accent 0.18 0 0 width 0 width (height * 0.45)],
      width * 0.5, height * 0.58, TextAlign.center, width - padding * 2⟩
  else
    ⟨[], width * 0.5, height * 0.52, TextAlign.center, width - padding * 2⟩

/-- CSS font string `"<size>px <family>"` assigned to `ctx.font` before
quote measurement and drawing. -/
def fontSpec (size : ℚ) (family : String) : String :=
  toString size ++ "px " ++ family

/-- CSS font string `"800 <size>px <family>"` assigned before drawing the
author line. -/
def fontSpecBold (size : ℚ) (family : String) : String :=
  "800 " ++ toString size ++ "px " ++ family

/-- Quote line draw calls: line `k` is drawn at `y + k * qLine` as the
source advances `y` by `qLine` after each `fillText`. -/
def textOps (lines : List (List Char)) (x y qLine : ℚ) (font color : String)
    (align : TextAlign) : List DrawOp :=
  lines.enum.map fun p => DrawOp.fillText p.2 x (y + (p.1 : ℚ) * qLine) font color align

/-- Outcome of a render: final raster dimensions and the trace of draw
calls. -/
structure RenderResult where
  width : ℚ
  height : ℚ
  ops : List DrawOp
deriving DecidableEq, Repr

/-- Card record consumed by the wall `renderCard` (fields of `CardData`,
page.tsx lines 17-34, that the renderer reads; `radius` is
`Number(card.radius)`). -/
structure CardData where
  quote : List Char
  author : List Char
  width : ℚ
  height : ℚ
  palette : Palette
  gradient : String × String
  font : FontPack
  bgType : String
  layout : String
  seed : ℚ
  radius : ℚ
  quoteSizeMultiplier : ℚ
  authorSizeMultiplier : ℚ
deriving DecidableEq, Repr

/-- Design view of a card record: the destructured style fields the wall
renderer passes on. -/
def designOf (card : CardData) : Design :=
  ⟨card.palette, card.gradient, card.font, card.bgType, card.layout, card.seed⟩

/-- Clamped raster width of the wall renderer:
`Math.max(1, Number(card.width) || 1)` (page.tsx line 323). -/
def wallW (card : CardData) : ℚ :=
  max 1 (jsOr card.width 1)

/-- Clamped raster height of the wall renderer (page.tsx line 324). -/
def wallH (card : CardData) : ℚ :=
  max 1 (jsOr card.height 1)

/-- Doodle color of the wall renderer (page.tsx line 423): pure white on a
`dark` background kind, else the palette accent. -/
def wallDoodleColor (card : CardData) : String :=
  if card.bgType = "dark" then "rgba(255,255,255,1)" else card.palette.accent

/-- Embedding of the wall `renderCard` (page.tsx lines 319-503).  The
canvas context is the trace of draw calls; `m font text` is
`ctx.measureText(text).width` under `ctx.font = font`; `sample` and `lum`
abstract `sampleAverageRgb` and `relLuma` as in `chooseTextColors`.  The
three clamp steps at lines 483-486 are the body of `computeSafeStartY`.
The function is total: every card record renders to a trace. -/
def wallRenderCard (rnd : ℚ → ℚ) (m : String → List Char → ℚ)
    (sample : List DrawOp → ℚ → ℚ → ℚ → ℚ → Rgb) (lum : Rgb → ℚ)
    (card : CardData) : RenderResult :=
  let width := wallW card
  let height := wallH card
  let quoteMul := jsOr card.quoteSizeMultiplier 100 / 100
  let authorMul := jsOr card.authorSizeMultiplier 100 / 100
  let padding := width * 0.1
  let qSize := ((⌊width * 0.05 * quoteMul⌋ : ℤ) : ℚ)
  let qLine := qSize * 1.38
  let aSize := if hasContent card.author
    then ((⌊width * 0.034 * authorMul⌋ : ℤ) : ℚ) else 0
  let clipOp := DrawOp.clipRounded 0 0 width height (effRadius card.radius width height)
  let bg := bgOps rnd (designOf card) width height
  let doodles := doodleOps rnd width height (wallDoodleColor card) (card.seed + 999)
  let lay := wallLayout (designOf card) width height padding
  let colors := chooseTextColors lum sample (clipOp :: bg ++ doodles ++ lay.ops)
    width height card.palette
  let qFont := fontSpec qSize card.font.quote
  let safeTop := padding * 0.9
  let safeBottom := height - padding * 0.9
  let textLines := wrapTextSmart (m qFont) card.quote lay.innerMax
  let quoteH := (textLines.length : ℚ) * qLine
  let aGap := if hasContent card.author then aSize * 0.6 else 0
  let aBlock := if hasContent card.author then aSize * 1.6 else 0
  let totalH := quoteH + aGap + aBlock
  let y := computeSafeStartY lay.contentY totalH safeTop safeBottom
  let x := if lay.align = TextAlign.left then lay.contentX else width / 2
  let quoteDraws := textOps textLines x y qLine qFont colors.1 lay.align
  let authorDraws := if hasContent card.author then
      [DrawOp.fillText card.author x (y + quoteH + aGap)
        (fontSpecBold aSize card.font.author) colors.2 lay.align]
    else []
  ⟨width, height, clipOp :: bg ++ doodles ++ lay.ops ++ quoteDraws ++ authorDraws⟩

/-- Requested export width of the generator renderer (page.tsx line 2223):
the format minimum, possibly raised by a user resize override. -/
def requestedW (format : FormatKey) (ov : Option (Option ℚ × Option ℚ)) : ℚ :=
  max (FORMATS format).1 ((ov.bind fun s => s.1).getD (FORMATS format).1)

/-- Requested export height of the generator renderer (page.tsx line 2224). -/
def requestedH (format : FormatKey) (ov : Option (Option ℚ × Option ℚ)) : ℚ :=
  max (FORMATS format).2 ((ov.bind fun s => s.2).getD (FORMATS format).2)

/-- Measurement pass of the generator renderer (page.tsx lines 2229-2247):
the wrapped-text block height at the requested width (quote lines times
line height, plus author gap and author block when the author is
nonblank). -/
def measuredBlockH (m : String → List Char → ℚ) (quoteMul authorMul : ℚ)
    (quote author : List Char) (design : Design) (format : FormatKey)
    (ov : Option (Option ℚ × Option ℚ)) : ℚ :=
  let width := requestedW format ov
  let padding := width * 0.1
  let maxWidth := width - padding * 2
  let qSize := ((⌊width * 0.05 * quoteMul⌋ : ℤ) : ℚ)
  let qLine := qSize * 1.38
  let lines := wrapTextSmartGen (m (fontSpec qSize design.font.quote)) quote maxWidth
  let aSize := if hasContent author
    then ((⌊width * 0.034 * authorMul⌋ : ℤ) : ℚ) else 0
  let aGap := if hasContent author then aSize * 0.6 else 0
  (lines.length : ℚ) * qLine + aGap + (if hasContent author then aSize * 1.6 else 0)

/-- Auto-grow target height (page.tsx line 2249):
`Math.ceil(blockH + padding * 2.6)`. -/
def neededH (m : String → List Char → ℚ) (quoteMul authorMul : ℚ)
    (quote author : List Char) (design : Design) (format : FormatKey)
    (ov : Option (Option ℚ × Option ℚ)) : ℚ :=
  ((⌈measuredBlockH m quoteMul authorMul quote author design format ov
      + requestedW format ov * 0.1 * 2.6⌉ : ℤ) : ℚ)

/-- Embedding of the generator `renderCard` (page.tsx lines 2211-2472).
Inputs beyond the card content mirror the ambient state the source reads:
`packName` is `stylePack.value` (doodles are skipped for the `minimal`
pack), `quoteMul`/`authorMul` are `getQuoteMul()`/`getAuthorMul()`,
`sizeOverride` is the per-card resize state (`w`/`h` may each be null), and
`radius` is `Number(radius)` of the select value.  The measurement canvas
`ctxM` and the target canvas both measure text under the same font string,
so both use `m`.  The function is total: rendering never fails. -/
def renderCardGen (rnd : ℚ → ℚ) (m : String → List Char → ℚ)
    (sample : List DrawOp → ℚ → ℚ → ℚ → ℚ → Rgb) (lum : Rgb → ℚ)
    (packName : String) (quoteMul authorMul : ℚ)
    (quote author : List Char) (design : Design) (format : FormatKey)
    (radius : ℚ) (sizeOverride : Option (Option ℚ × Option ℚ)) : RenderResult :=
  let width := requestedW format sizeOverride
  let padding := width * 0.1
  let qSize := ((⌊width * 0.05 * quoteMul⌋ : ℤ) : ℚ)
  let qLine := qSize * 1.38
  let qFont := fontSpec qSize design.font.quote
  let aSize := if hasContent author
    then ((⌊width * 0.034 * authorMul⌋ : ℤ) : ℚ) else 0
  let aGap := if hasContent author then aSize * 0.6 else 0
  let height := max (requestedH format sizeOverride)
    (neededH m quoteMul authorMul quote author design format sizeOverride)
  let clipOp := DrawOp.clipRounded 0 0 width height (effRadius radius width height)
  let bg := bgOps rnd design width height
  let doodles := if packName ≠ "minimal" then
      doodleOps rnd width height
        (if design.bgType = "dark" then "rgba(255,255,255,1)" else design.palette.accent)
        (design.seed + 999)
    else []
  let lay := genLayout design width height padding
  let colors := chooseTextColors lum sample (clipOp :: bg ++ doodles ++ lay.ops)
    width height design.palette
  let safeTop := padding * 0.9
  let safeBottom := height - padding * 0.9
  let textLines := wrapTextSmartGen (m qFont) quote lay.innerMax
  let quoteH := (textLines.length : ℚ) * qLine
  let aBlock := if hasContent author then aSize * 1.6 else 0
  let totalH := quoteH + aGap + aBlock
  let y := computeSafeStartY lay.contentY totalH safeTop safeBottom
  let x := if lay.align = TextAlign.left then lay.contentX else width / 2
  let quoteDraws := textOps textLines x y qLine qFont colors.1 lay.align
  let authorDraws := if hasContent author then
      [DrawOp.fillText author x (y + quoteH + aGap)
        (fontSpecBold aSize design.font.author) colors.2 lay.align]
    else []
  ⟨width, height, clipOp :: bg ++ doodles ++ lay.ops ++ quoteDraws ++ authorDraws⟩

/-- Test for a text draw call. -/
def isTextDraw : DrawOp → Bool
  | DrawOp.fillText _ _ _ _ _ _ => true
  | _ => false

/-- Speckles are rectangles, not text. -/
theorem speckleOps_no_text (rnd : ℚ → ℚ) (seed width height : ℚ) (accent : String) :
    ∀ op ∈ speckleOps rnd seed width height accent, isTextDraw op = false := by
  intro op hop
  simp only [speckleOps, List.mem_map, List.mem_range] at hop
  obtain ⟨i, _, rfl⟩ := hop
  rfl

/-- Stripes are lines, not text. -/
theorem stripeOps_no_text (width height : ℚ) :
    ∀ op ∈ stripeOps width height, isTextDraw op = false := by
  intro op hop
  simp only [stripeOps, List.mem_map, List.mem_range] at hop
  obtain ⟨k, _, rfl⟩ := hop
  rfl

/-- Halftone dots are not text. -/
theorem halftoneOps_no_text (rnd : ℚ → ℚ) (seed width height : ℚ) :
    ∀ op ∈ halftoneOps rnd seed width height, isTextDraw op = false := by
  intro op hop
  simp only [halftoneOps, List.mem_flatMap, List.mem_map, List.mem_range] at hop
  obtain ⟨ky, _, kx, _, rfl⟩ := hop
  rfl

/-- Blobs are circles, not text. -/
theorem blobOps_no_text (rnd : ℚ → ℚ) (seed width height : ℚ) (accent : String) :
    ∀ op ∈ blobOps rnd seed width height accent, isTextDraw op = false := by
  intro op hop
  simp only [blobOps, List.mem_map, List.mem_range] at hop
  obtain ⟨i, _, rfl⟩ := hop
  rfl

/-- The background renderer issues no text draw calls. -/
theorem bgOps_no_text (rnd : ℚ → ℚ) (d : Design) (width height : ℚ) :
    ∀ op ∈ bgOps rnd d width height, isTextDraw op = false := by
  intro op hop
  unfold bgOps at hop
  split_ifs at hop <;>
    simp only [List.mem_cons, List.not_mem_nil, or_false] at hop <;>
    repeat first
      | rfl
      | (rcases hop with rfl | hop)
      | (subst hop; rfl)
      | exact speckleOps_no_text rnd d.seed width height d.palette.accent op hop
      | exact stripeOps_no_text width height op hop
      | exact halftoneOps_no_text rnd d.seed width height op hop
      | exact blobOps_no_text rnd d.seed width height d.palette.accent op hop

/-- The decoration renderer issues no text draw calls. -/
theorem doodleOps_no_text (rnd : ℚ → ℚ) (width height : ℚ) (color : String)
    (seed : ℚ) :
    ∀ op ∈ doodleOps rnd width height color seed, isTextDraw op = false := by
  intro op hop
  simp only [doodleOps, List.mem_flatMap, List.mem_range] at hop
  obtain ⟨i, _, hop⟩ := hop
  split_ifs at hop
  · simp at hop
  · simp only [List.mem_singleton] at hop; subst hop; rfl
  · simp only [List.mem_singleton] at hop; subst hop; rfl

/-- Layout accents of the wall renderer are not text. -/
theorem wallLayout_no_text (d : Design) (width height padding : ℚ) :
    ∀ op ∈ (wallLayout d width height padding).ops, isTextDraw op = false := by
  intro op hop
  unfold wallLayout at hop
  split_ifs at hop <;> simp only [List.mem_singleton, List.not_mem_nil] at hop <;>
    (subst hop; rfl)

/-- Layout accents of the generator renderer are not text. -/
theorem genLayout_no_text (d : Design) (width height padding : ℚ) :
    ∀ op ∈ (genLayout d width height padding).ops, isTextDraw op = false := by
  intro op hop
  unfold genLayout at hop
  split_ifs at hop <;> simp only [List.mem_singleton, List.not_mem_nil] at hop <;>
    (subst hop; rfl)

/-- A list without text draw calls filters under `isTextDraw` to nothing. -/
theorem filter_isTextDraw_eq_nil (l : List DrawOp)
    (h : ∀ op ∈ l, isTextDraw op = false) : l.filter isTextDraw = [] := by
  induction l with
  | nil => rfl
  | cons a l ih =>
      have ha := h a (by simp)
      simp only [List.filter_cons, ha, Bool.false_eq_true, if_false]
      exact ih (fun op hop => h op (by simp [hop]))

/-- C1: rendering is deterministic.  The generator `renderCard` is a pure
function of the card input (quote, author, the six Design fields, format
and resize override determining width and height, corner radius, the two
size multipliers), the style-pack name, and the four host collaborators
(the seeded PRNG `seededRandom` taken as `rnd`, the text measurer, the
pixel sampler and the luminance map): two invocations on componentwise
equal inputs produce the identical draw trace and dimensions.  No other
source of randomness appears in the embedding because the source reads
none (`Date.now()` is used only for batch seeds outside `renderCard`). -/
theorem renderCardGen_deterministic
    (rnd : ℚ → ℚ) (m : String → List Char → ℚ)
    (sample : List DrawOp → ℚ → ℚ → ℚ → ℚ → Rgb) (lum : Rgb → ℚ)
    (packName : String)
    (qMul₁ qMul₂ aMul₁ aMul₂ : ℚ) (quote₁ quote₂ author₁ author₂ : List Char)
    (d₁ d₂ : Design) (format₁ format₂ : FormatKey) (radius₁ radius₂ : ℚ)
    (ov₁ ov₂ : Option (Option ℚ × Option ℚ))
    (hqm : qMul₁ = qMul₂) (ham : aMul₁ = aMul₂)
    (hq : quote₁ = quote₂) (ha : author₁ = author₂)
    (hpal : d₁.palette = d₂.palette) (hgrad : d₁.gradient = d₂.gradient)
    (hfont : d₁.font = d₂.font) (hbg : d₁.bgType = d₂.bgType)
    (hlay : d₁.layout = d₂.layout) (hseed : d₁.seed = d₂.seed)
    (hfmt : format₁ = format₂) (hrad : radius₁ = radius₂) (hov : ov₁ = ov₂) :
    renderCardGen rnd m sample lum packName qMul₁ aMul₁ quote₁ author₁ d₁
        format₁ radius₁ ov₁
      = renderCardGen rnd m sample lum packName qMul₂ aMul₂ quote₂ author₂ d₂
        format₂ radius₂ ov₂ := by
  have hd : d₁ = d₂ := by
    cases d₁; cases d₂; simp_all
  subst hqm; subst ham; subst hq; subst ha; subst hd; subst hfmt; subst hrad
  subst hov
  rfl

/-- Witness instantiating the determinism theorem on a concrete input. -/
theorem renderCardGen_deterministic_witness :
    renderCardGen (fun _ => 0) (fun _ _ => 0) (fun _ _ _ _ _ => ⟨0, 0, 0⟩)
        (fun _ => 0) "balanced" 1 1 [] []
        ⟨⟨"", "", ""⟩, ("", ""), ⟨"", ""⟩, "solid", "centered", 0⟩
        FormatKey.square 0 none
      = renderCardGen (fun _ => 0) (fun _ _ => 0) (fun _ _ _ _ _ => ⟨0, 0, 0⟩)
        (fun _ => 0) "balanced" 1 1 [] []
        ⟨⟨"", "", ""⟩, ("", ""), ⟨"", ""⟩, "solid", "centered", 0⟩
        FormatKey.square 0 none :=
  renderCardGen_deterministic (fun _ => 0) (fun _ _ => 0) (fun _ _ _ _ _ => ⟨0, 0, 0⟩)
    (fun _ => 0) "balanced" 1 1 1 1 [] [] [] []
    ⟨⟨"", "", ""⟩, ("", ""), ⟨"", ""⟩, "solid", "centered", 0⟩
    ⟨⟨"", "", ""⟩, ("", ""), ⟨"", ""⟩, "solid", "centered", 0⟩
    FormatKey.square FormatKey.square 0 0 none none
    rfl rfl rfl rfl rfl rfl rfl rfl rfl rfl rfl rfl rfl

/-- C7: auto-grow sizing of the generator `renderCard`.  The final canvas
width is exactly the requested width (format minimum raised only by a
resize override), and the final canvas height is the maximum of the
requested height and the auto-grow target `neededH`, which is the measured
wrapped-text block height plus the padding margin
(`Math.ceil(blockH + padding * 2.6)`).  Only height ever grows; width
passes through unchanged. -/
theorem renderCardGen_autogrow (rnd : ℚ → ℚ) (m : String → List Char → ℚ)
    (sample : List DrawOp → ℚ → ℚ → ℚ → ℚ → Rgb) (lum : Rgb → ℚ)
    (packName : String) (quoteMul authorMul : ℚ) (quote author : List Char)
    (design : Design) (format : FormatKey) (radius : ℚ)
    (sizeOverride : Option (Option ℚ × Option ℚ)) :
    (renderCardGen rnd m sample lum packName quoteMul authorMul quote author
        design format radius sizeOverride).width = requestedW format sizeOverride
      ∧ (renderCardGen rnd m sample lum packName quoteMul authorMul quote author
          design format radius sizeOverride).height
          = max (requestedH format sizeOverride)
              (neededH m quoteMul authorMul quote author design format sizeOverride) :=
  ⟨rfl, rfl⟩

/-- C8: fallbacks for unknown tags.  A background-kind tag outside the
eight dispatched kinds (note `solid` itself has no case and also lands
here) yields exactly one solid fill with the palette background color, and
a layout tag outside the eight dispatched layouts yields the centered
full-width layout — center alignment, anchor at 52% of the height,
available width `width - 2*padding` — with no accent draw call.  Both
dispatchers (and the full renderers built from them) are total functions:
rendering never fails on an unknown tag. -/
theorem renderCard_unknown_tag_defaults (rnd : ℚ → ℚ) (d : Design)
    (width height padding : ℚ) :
    (d.bgType ∉ ["gradient", "glass", "dark", "paper", "noise", "stripes",
        "halftone", "blobs"] →
      bgOps rnd d width height = [DrawOp.fillRect d.palette.bg 1 0 0 width height]) ∧
    (d.layout ∉ ["left", "icon-top", "bordered", "split", "underline", "footer",
        "corner-frame", "diagonal"] →
      genLayout d width height padding
        = ⟨[], width * 0.5, height * 0.52, TextAlign.center, width - padding * 2⟩) := by
  constructor
  · intro h
    simp only [List.mem_cons, List.not_mem_nil, or_false, not_or] at h
    obtain ⟨h₁, h₂, h₃, h₄, h₅, h₆, h₇, h₈⟩ := h
    simp [bgOps, h₁, h₂, h₃, h₄, h₅, h₆, h₇, h₈]
  · intro h
    simp only [List.mem_cons, List.not_mem_nil, or_false, not_or] at h
    obtain ⟨h₁, h₂, h₃, h₄, h₅, h₆, h₇, h₈⟩ := h
    simp [genLayout, h₁, h₂, h₃, h₄, h₅, h₆, h₇, h₈]

/-- Witness instantiating the unknown-tag fallbacks on a design with an
alien background tag and the caseless `centered` layout tag. -/
theorem renderCard_unknown_tag_defaults_witness :
    bgOps (fun _ => 0)
        ⟨⟨"#FFF5F5", "#2D3748", "#E53E3E"⟩, ("", ""), ⟨"", ""⟩, "marble", "centered", 0⟩
        4 3
        = [DrawOp.fillRect "#FFF5F5" 1 0 0 4 3]
      ∧ genLayout
          ⟨⟨"#FFF5F5", "#2D3748", "#E53E3E"⟩, ("", ""), ⟨"", ""⟩, "marble", "centered", 0⟩
          4 3 1
          = ⟨[], 4 * 0.5, 3 * 0.52, TextAlign.center, 4 - 1 * 2⟩ :=
  ⟨(renderCard_unknown_tag_defaults (fun _ => 0)
      ⟨⟨"#FFF5F5", "#2D3748", "#E53E3E"⟩, ("", ""), ⟨"", ""⟩, "marble", "centered", 0⟩
      4 3 1).1 (by decide),
   (renderCard_unknown_tag_defaults (fun _ => 0)
      ⟨⟨"#FFF5F5", "#2D3748", "#E53E3E"⟩, ("", ""), ⟨"", ""⟩, "marble", "centered", 0⟩
      4 3 1).2 (by decide)⟩

/-- C9: a quote that is empty or all whitespace wraps to zero lines, and
the wall `renderCard` still completes (it is a total function), drawing the
clip, the full background, the decorations and the layout accents, and
issuing no quote-text draw call — the only text draw that can remain is
the single author line when the author is nonblank. -/
theorem wallRenderCard_blank_quote (rnd : ℚ → ℚ) (m : String → List Char → ℚ)
    (sample : List DrawOp → ℚ → ℚ → ℚ → ℚ → Rgb) (lum : Rgb → ℚ)
    (card : CardData) (hws : card.quote.all jsWhitespace = true) :
    (∀ (mf : List Char → ℚ) (w : ℚ), wrapTextSmart mf card.quote w = []) ∧
      ((wallRenderCard rnd m sample lum card).ops.filter isTextDraw).length
          = (if hasContent card.author then 1 else 0) ∧
      ∃ authorDraws : List DrawOp,
        (∀ op ∈ authorDraws, isTextDraw op = true) ∧
          (wallRenderCard rnd m sample lum card).ops
            = DrawOp.clipRounded 0 0 (wallW card) (wallH card)
                  (effRadius card.radius (wallW card) (wallH card))
                :: bgOps rnd (designOf card) (wallW card) (wallH card)
                ++ doodleOps rnd (wallW card) (wallH card) (wallDoodleColor card)
                    (card.seed + 999)
                ++ (wallLayout (designOf card) (wallW card) (wallH card)
                    (wallW card * 0.1)).ops
                ++ authorDraws := by
  have hws2 : ∀ c ∈ card.quote, jsWhitespace c = true := by
    intro c hc
    exact List.all_eq_true.mp hws c hc
  have htok : tokenize card.quote = [] := tokenize_of_all_ws card.quote hws2
  have hwrap : ∀ (mf : List Char → ℚ) (w : ℚ), wrapTextSmart mf card.quote w = [] := by
    intro mf w
    simp [wrapTextSmart, htok, wrapTokens]
  refine ⟨hwrap, ?_⟩
  obtain ⟨AD, hADtext, hADlen, hops⟩ :
      ∃ AD : List DrawOp, (∀ op ∈ AD, isTextDraw op = true) ∧
        AD.length = (if hasContent card.author then 1 else 0) ∧
        (wallRenderCard rnd m sample lum card).ops
          = DrawOp.clipRounded 0 0 (wallW card) (wallH card)
                (effRadius card.radius (wallW card) (wallH card))
              :: bgOps rnd (designOf card) (wallW card) (wallH card)
              ++ doodleOps rnd (wallW card) (wallH card) (wallDoodleColor card)
                  (card.seed + 999)
              ++ (wallLayout (designOf card) (wallW card) (wallH card)
                  (wallW card * 0.1)).ops
              ++ AD := by
    by_cases hauth : hasContent card.author
    · obtain ⟨x, y, f, c, a, he⟩ :
          ∃ x y f c a, (wallRenderCard rnd m sample lum card).ops
            = DrawOp.clipRounded 0 0 (wallW card) (wallH card)
                  (effRadius card.radius (wallW card) (wallH card))
                :: bgOps rnd (designOf card) (wallW card) (wallH card)
                ++ doodleOps rnd (wallW card) (wallH card) (wallDoodleColor card)
                    (card.seed + 999)
                ++ (wallLayout (designOf card) (wallW card) (wallH card)
                    (wallW card * 0.1)).ops
                ++ [DrawOp.fillText card.author x y f c a] :=
        ⟨_, _, _, _, _, by
          simp [wallRenderCard, hwrap, textOps, hauth]
          exact ⟨rfl, rfl, rfl, rfl, rfl⟩⟩
      refine ⟨[DrawOp.fillText card.author x y f c a], ?_, by simp [hauth], he⟩
      intro op hop
      simp only [List.mem_singleton] at hop
      subst hop
      rfl
    · refine ⟨[], ?_, by simp [hauth], ?_⟩
      · intro op hop; simp at hop
      · simp [wallRenderCard, hwrap, textOps, hauth]
  have hprefix : ∀ op ∈ DrawOp.clipRounded 0 0 (wallW card) (wallH card)
          (effRadius card.radius (wallW card) (wallH card))
        :: bgOps rnd (designOf card) (wallW card) (wallH card)
        ++ doodleOps rnd (wallW card) (wallH card) (wallDoodleColor card)
            (card.seed + 999)
        ++ (wallLayout (designOf card) (wallW card) (wallH card)
            (wallW card * 0.1)).ops, isTextDraw op = false := by
    intro op hop
    rcases List.mem_cons.mp hop with rfl | hop
    · rfl
    · rcases List.mem_append.mp hop with hop | hop
      · rcases List.mem_append.mp hop with hop | hop
        · exact bgOps_no_text rnd (designOf card) _ _ op hop
        · exact doodleOps_no_text rnd _ _ _ _ op hop
      · exact wallLayout_no_text (designOf card) _ _ _ op hop
  constructor
  · rw [hops, List.filter_append, filter_isTextDraw_eq_nil _ ?_, List.nil_append,
      List.filter_eq_self.mpr hADtext, hADlen]
    intro op hop
    exact hprefix op (by simpa using hop)
  · exact ⟨AD, hADtext, hops⟩

/-- Concrete wall card with an empty quote and blank author, for the
blank-quote witness. -/
def cardBlank : CardData :=
  ⟨[], [], 100, 100, ⟨"#FFF5F5", "#2D3748", "#E53E3E"⟩, ("#667eea", "#764ba2"),
    ⟨"Georgia, serif", "Georgia, serif"⟩, "solid", "centered", 7, 0, 100, 100⟩

/-- Witness instantiating the blank-quote theorem on a concrete card. -/
theorem wallRenderCard_blank_quote_witness :
    (∀ (mf : List Char → ℚ) (w : ℚ), wrapTextSmart mf cardBlank.quote w = []) ∧
      ((wallRenderCard (fun _ => 0) (fun _ _ => 0) (fun _ _ _ _ _ => ⟨0, 0, 0⟩)
          (fun _ => 0) cardBlank).ops.filter isTextDraw).length
          = (if hasContent cardBlank.author then 1 else 0) ∧
      ∃ authorDraws : List DrawOp,
        (∀ op ∈ authorDraws, isTextDraw op = true) ∧
          (wallRenderCard (fun _ => 0) (fun _ _ => 0) (fun _ _ _ _ _ => ⟨0, 0, 0⟩)
              (fun _ => 0) cardBlank).ops
            = DrawOp.clipRounded 0 0 (wallW cardBlank) (wallH cardBlank)
                  (effRadius cardBlank.radius (wallW cardBlank) (wallH cardBlank))
                :: bgOps (fun _ => 0) (designOf cardBlank) (wallW cardBlank)
                    (wallH cardBlank)
                ++ doodleOps (fun _ => 0) (wallW cardBlank) (wallH cardBlank)
                    (wallDoodleColor cardBlank) (cardBlank.seed + 999)
                ++ (wallLayout (designOf cardBlank) (wallW cardBlank)
                    (wallH cardBlank) (wallW cardBlank * 0.1)).ops
                ++ authorDraws :=
  wallRenderCard_blank_quote (fun _ => 0) (fun _ _ => 0) (fun _ _ _ _ _ => ⟨0, 0, 0⟩)
    (fun _ => 0) cardBlank rfl

end PraiseCards
